import Mathlib

/-!
# Verification of the word-bucket game and its leaderboard server

A shallow embedding of the core logic of the repository: the word-set
helpers (`wordLogic.ts`), the spawn/gravity/drag logic of the client game
(`BucketGame.tsx`), and the leaderboard key, expiry and score-submission
logic of the server. ECMAScript UTC date arithmetic is modelled with the
standard proleptic-Gregorian civil-from-days / days-from-civil algorithms
over `Int`, and verified: `daysFromCivil` inverts `civilFromDays` for every
day number, which grounds the period-boundary theorems.

All definitions are executable; theorems about concrete instants evaluate
by `decide`.
-/

/-- Year shift used by the days-from-civil algorithm: January and February
count as months 13/14 of the previous year. -/
def yShiftOf (y m : Int) : Int := y - (if m ≤ 2 then 1 else 0)

/-- Year-of-era of the shifted year. -/
def yoeFwd (y m : Int) : Int := yShiftOf y m - yShiftOf y m / 400 * 400

/-- March-based month code: March ↦ 0, …, December ↦ 9, January ↦ 10, February ↦ 11. -/
def monthCode (m : Int) : Int := m + (if 2 < m then -3 else 9)

/-- Days since 1970-01-01 of the proleptic-Gregorian date `(y, m, d)`; `m` is
1-based; `d` may lie outside `[1, 31]`, shifting the result linearly, exactly as
ECMAScript `Date.UTC` handles day overflow. -/
def daysFromCivil (y m d : Int) : Int :=
  yShiftOf y m / 400 * 146097 +
    (yoeFwd y m * 365 + yoeFwd y m / 4 - yoeFwd y m / 100 +
      ((153 * monthCode m + 2) / 5 + d - 1)) - 719468

/-- Start day-of-era of year-of-era `k` in the March-based 400-year era. -/
def dstart (k : Int) : Int := 365 * k + k / 4 - k / 100

/-- The year-of-era formula used by the civil-from-days algorithm. -/
def eraFormula (doe : Int) : Int :=
  (doe - doe / 1460 + doe / 36524 - doe / 146096) / 365

/-- Last day-of-era belonging to year-of-era `k`. -/
def yearEnd (k : Int) : Int := if k = 399 then 146096 else dstart (k + 1) - 1

/-- 400-year era index of a days-since-epoch value. -/
def eraOf (z : Int) : Int := (z + 719468) / 146097

/-- Day-of-era of a days-since-epoch value. -/
def doeOf (z : Int) : Int := z + 719468 - eraOf z * 146097

/-- Year-of-era of a days-since-epoch value. -/
def yoeOf (z : Int) : Int := eraFormula (doeOf z)

/-- Day-of-year (March-based) of a days-since-epoch value. -/
def doyOf (z : Int) : Int := doeOf z - (365 * yoeOf z + yoeOf z / 4 - yoeOf z / 100)

/-- March-based month code of a days-since-epoch value. -/
def mpOf (z : Int) : Int := (5 * doyOf z + 2) / 153

/-- Day-of-month (1-based) of a days-since-epoch value. -/
def civilDay (z : Int) : Int := doyOf z - (153 * mpOf z + 2) / 5 + 1

/-- Month (1-based) of a days-since-epoch value. -/
def civilMonth (z : Int) : Int := mpOf z + (if mpOf z < 10 then 3 else -9)

/-- Year of a days-since-epoch value. -/
def civilYear (z : Int) : Int :=
  yoeOf z + eraOf z * 400 + (if civilMonth z ≤ 2 then 1 else 0)

/-- Proleptic-Gregorian `(year, month, day)` of a days-since-epoch value, the
semantics of ECMAScript `getUTCFullYear` / `getUTCMonth` (+1) / `getUTCDate`. -/
def civilFromDays (z : Int) : Int × Int × Int := (civilYear z, civilMonth z, civilDay z)

/-- Milliseconds per UTC day. -/
def msPerDay : Int := 86400000

/-- Whole days since the epoch of a millisecond timestamp (floor division,
matching ECMAScript date decomposition). -/
def epochDaysOf (ms : Int) : Int := ms / msPerDay

/-- ECMAScript `getUTCDay`: 0 = Sunday … 6 = Saturday (1970-01-01 was a Thursday). -/
def getUTCDayOfWeek (ms : Int) : Int := (epochDaysOf ms + 4) % 7

/-- ECMAScript `Date.UTC(y, m0, d)` expressed in days: `m0` is the 0-based
month index, normalized into the year exactly as `MakeDay` does. -/
def dateUTC (y m0 d : Int) : Int := daysFromCivil (y + m0 / 12) (m0 % 12 + 1) d

/-- The leaderboard time periods (`shared/types/api.ts`). -/
inductive LeaderboardPeriod where
  | daily
  | weekly
  | monthly
  | overall
deriving DecidableEq, Repr

/-- `String(n).padStart(2, "0")`. -/
def padStart2 (s : String) : String := if s.length < 2 then "0" ++ s else s

/-- A number rendered with at least two digits, as the server does for months,
days and ISO weeks. -/
def pad2 (n : Int) : String := padStart2 (toString n)

/-- A year rendered with four digits, as `Date.prototype.toISOString` does for
years 0–9999 (the only range the model covers). -/
def pad4 (n : Int) : String :=
  if n < 10 then "000" ++ toString n
  else if n < 100 then "00" ++ toString n
  else if n < 1000 then "0" ++ toString n
  else toString n

/-- `new Date().toISOString().slice(0, 10)`: the UTC date as `YYYY-MM-DD`. -/
def getLeaderboardDay (now : Int) : String :=
  pad4 (civilYear (epochDaysOf now)) ++ "-" ++ pad2 (civilMonth (epochDaysOf now)) ++
    "-" ++ pad2 (civilDay (epochDaysOf now))

/-- `utcDate.getUTCDay() || 7`: day-of-week with Sunday mapped to 7. -/
def jsDow7 (now : Int) : Int :=
  if getUTCDayOfWeek now = 0 then 7 else getUTCDayOfWeek now

/-- `getIsoWeekKey` from the server: shift the date to the Thursday of its ISO
week, then `ceil((daysSinceJan1OfThatYear + 1) / 7)`, rendered as
`<year>-W<2-digit week>`. -/
def getIsoWeekKey (now : Int) : String :=
  let z := epochDaysOf now
  let thu := dateUTC (civilYear z) (civilMonth z - 1) (civilDay z + (4 - jsDow7 now))
  let yearStart := dateUTC (civilYear thu) 0 1
  let weekNumber := (thu - yearStart + 1 + 6) / 7
  toString (civilYear thu) ++ "-W" ++ pad2 weekNumber

/-- `getLeaderboardKey` from the server. -/
def getLeaderboardKey (period : LeaderboardPeriod) (now : Int) : String :=
  match period with
  | .daily => "leaderboard:daily:" ++ getLeaderboardDay now
  | .weekly => "leaderboard:weekly:" ++ getIsoWeekKey now
  | .monthly => "leaderboard:monthly:" ++ toString (civilYear (epochDaysOf now)) ++ "-" ++
      pad2 (civilMonth (epochDaysOf now))
  | .overall => "leaderboard:overall"

/-- `Date.UTC(now.getUTCFullYear(), now.getUTCMonth(), now.getUTCDate() + 1)`:
the next UTC midnight, in milliseconds. -/
def nextUtcMidnight (now : Int) : Int :=
  dateUTC (civilYear (epochDaysOf now)) (civilMonth (epochDaysOf now) - 1)
    (civilDay (epochDaysOf now) + 1) * msPerDay

/-- `Date.UTC(…, now.getUTCDate() + (8 - utcDay))`: the next UTC Monday
midnight, in milliseconds. -/
def nextWeekStart (now : Int) : Int :=
  dateUTC (civilYear (epochDaysOf now)) (civilMonth (epochDaysOf now) - 1)
    (civilDay (epochDaysOf now) + (8 - jsDow7 now)) * msPerDay

/-- `Date.UTC(now.getUTCFullYear(), now.getUTCMonth() + 1, 1)`: the first
instant of the next UTC month, in milliseconds. -/
def nextMonthStart (now : Int) : Int :=
  dateUTC (civilYear (epochDaysOf now)) (civilMonth (epochDaysOf now) - 1 + 1) 1 * msPerDay

/-- `getSecondsUntilNextPeriod` from the server. -/
def getSecondsUntilNextPeriod (period : LeaderboardPeriod) (now : Int) : Option Int :=
  match period with
  | .overall => none
  | .daily => some (max 60 ((nextUtcMidnight now - now) / 1000))
  | .weekly => some (max 60 ((nextWeekStart now - now) / 1000))
  | .monthly => some (max 60 ((nextMonthStart now - now) / 1000))

/-! ### Word logic (`src/client/game/wordLogic.ts`) -/

/-- A themed group of candidate target words; words are lists of characters. -/
structure WordSet where
  label : String
  words : List (List Char)
deriving DecidableEq, Repr

/-- The fixed catalog of word sets. -/
def WORD_SETS : List WordSet :=
  [⟨"R* words", [['r','a','t'], ['r','a','g'], ['r','a','m']]⟩,
   ⟨"C* words", [['c','a','t'], ['c','a','p'], ['c','a','r']]⟩,
   ⟨"H* words", [['h','a','t'], ['h','a','m'], ['h','a','s']]⟩,
   ⟨"M* words", [['m','a','p'], ['m','a','n'], ['m','a','d']]⟩,
   ⟨"B* words", [['b','e','d'], ['b','e','e'], ['b','e','g']]⟩,
   ⟨"P* words", [['p','e','n'], ['p','e','t'], ['p','e','g']]⟩,
   ⟨"F* words", [['f','o','x'], ['f','o','g'], ['f','o','r']]⟩,
   ⟨"J* words", [['j','a','r'], ['j','a','m'], ['j','a','w']]⟩,
   ⟨"B* words (u)", [['b','u','g'], ['b','u','n'], ['b','u','t']]⟩]

/-- Insertion-ordered deduplication, the contents of a JavaScript `Set`
built from a list. -/
def jsSetList {α : Type} [DecidableEq α] (l : List α) : List α :=
  l.foldl (fun acc c => if c ∈ acc then acc else acc ++ [c]) []

/-- `getValidLettersByIndex`: for each index of the first word, the set of
characters appearing at that index across all words (an out-of-range read
yields `none`, as indexing a short string yields `undefined`). -/
def getValidLettersByIndex (ws : WordSet) : List (List (Option Char)) :=
  (List.range (ws.words.headD []).length).map fun i =>
    jsSetList (ws.words.map fun w => w[i]?)

/-- `isWordComplete`: false if any bucket slot is empty, otherwise whether the
concatenation of the filled slots is one of the words. -/
def isWordComplete (buckets : List (Option Char)) (ws : WordSet) : Bool :=
  if buckets.any fun slot => slot == none then false
  else ws.words.contains buckets.reduceOption

/-! ### Client game model (`src/client/game/BucketGame.tsx`) -/

/-- A live falling letter tile. -/
structure FallingLetter where
  id : String
  char : Char
  x : ℚ
  y : ℚ
  speed : ℚ
  isDragging : Bool
deriving DecidableEq, Repr

/-- Tile size in pixels. -/
def LETTER_SIZE : ℚ := 48

/-- JavaScript `array.slice(-14)`: the suffix of the last (at most) 14 items. -/
def jsSliceLast14 {α : Type} (l : List α) : List α := l.drop (l.length - 14)

/-- One spawn-interval tick: append the newly spawned letter and keep only the
last 14 entries. -/
def spawnTick (prev : List FallingLetter) (next : FallingLetter) : List FallingLetter :=
  jsSliceLast14 (prev ++ [next])

/-- One gravity tick: advance every non-dragging letter by its speed, then
keep only the letters whose `y` is above the bottom cutoff. -/
def fallTick (height : ℚ) (letters : List FallingLetter) : List FallingLetter :=
  (letters.map fun l => if l.isDragging then l else { l with y := l.y + l.speed }).filter
    fun l => l.y < height + LETTER_SIZE

/-- The pointer-move handler restricted to the dragged letter: the new position
is clamped to keep the tile fully inside the play area. -/
def handlePointerMove (draggedId : String) (clientX clientY left top offX offY width height : ℚ)
    (letters : List FallingLetter) : List FallingLetter :=
  let nextX := min (max (clientX - left - offX) 0) (width - LETTER_SIZE)
  let nextY := min (max (clientY - top - offY) 0) (height - LETTER_SIZE)
  letters.map fun l => if l.id = draggedId then { l with x := nextX, y := nextY } else l

/-- Release a drag without placing: mark the dragged letter as no longer
dragging, leaving its position untouched. -/
def releaseDraggedLetter (draggedId : String) (letters : List FallingLetter) :
    List FallingLetter :=
  letters.map fun l => if l.id = draggedId then { l with isDragging := false } else l

/-- Whether `buckets[i]` holds a letter; an out-of-range index reads as empty,
as `undefined` is falsy. -/
def bucketOccupied (buckets : List (Option Char)) (i : Nat) : Bool :=
  match buckets[i]? with
  | some (some _) => true
  | _ => false

/-- The pointer-up handler of `BucketGame`: `dropTargetIndex` is the result of
the hit test (`none` when no bucket region contains the release point).
Returns the new bucket slots and the new live-letter list. -/
def handlePointerUp (dropTargetIndex : Option Nat) (draggedId : String)
    (buckets : List (Option Char)) (validLettersByIndex : List (List (Option Char)))
    (letters : List FallingLetter) : List (Option Char) × List FallingLetter :=
  match dropTargetIndex with
  | some i =>
    if bucketOccupied buckets i then
      (buckets, releaseDraggedLetter draggedId letters)
    else
      match letters.find? fun l => l.id == draggedId with
      | some draggedLetter =>
        if (validLettersByIndex[i]?.getD []).contains (some draggedLetter.char) then
          (buckets.mapIdx fun j slot => if j = i then some draggedLetter.char else slot,
           letters.filter fun l => l.id != draggedId)
        else
          (buckets, releaseDraggedLetter draggedId letters)
      | none => (buckets, releaseDraggedLetter draggedId letters)
  | none => (buckets, releaseDraggedLetter draggedId letters)

/-! ### Leaderboard service model (server routes) -/

/-- A JavaScript number as far as score validation observes it. -/
inductive JsNum where
  | num (q : ℚ)
  | nan
  | posInf
  | negInf
deriving DecidableEq, Repr

/-- The finite value of a `JsNum`; only meaningful for `num`. -/
def JsNum.toFinite : JsNum → ℚ
  | .num q => q
  | _ => 0

/-- `!Number.isFinite(score) || score <= 0`. -/
def scoreInvalid : JsNum → Bool
  | .num q => q ≤ 0
  | _ => true

/-- The sorted-set store: per key, each member has an optional score; each key
has an optional time-to-live. -/
structure LeaderboardStore where
  scores : String → String → Option ℚ
  ttl : String → Option Int

/-- `redis.zAdd(key, {member, score})`. -/
def zAdd (st : LeaderboardStore) (key member : String) (score : ℚ) : LeaderboardStore :=
  { st with scores := fun k m => if k = key ∧ m = member then some score else st.scores k m }

/-- `redis.expire(key, seconds)`. -/
def redisExpire (st : LeaderboardStore) (key : String) (seconds : Int) : LeaderboardStore :=
  { st with ttl := fun k => if k = key then some seconds else st.ttl k }

/-- `if (expireSeconds) { await redis.expire(key, expireSeconds) }` — a `null`
or zero expiry is falsy and skips the call. -/
def applyExpiry (now : Int) (period : LeaderboardPeriod) (key : String)
    (st : LeaderboardStore) : LeaderboardStore :=
  match getSecondsUntilNextPeriod period now with
  | some s => if s = 0 then st else redisExpire st key s
  | none => st

/-- The per-period body of the submission loop: read the existing score and
write (then refresh the expiry) only if absent or strictly exceeded. -/
def upsertScoreForPeriod (now : Int) (username : String) (score : ℚ)
    (st : LeaderboardStore) (period : LeaderboardPeriod) : LeaderboardStore :=
  let key := getLeaderboardKey period now
  match st.scores key username with
  | none => applyExpiry now period key (zAdd st key username score)
  | some existingScore =>
    if score > existingScore then applyExpiry now period key (zAdd st key username score)
    else st

/-- The request-body `period` field: a single period or the string `all`. -/
inductive PeriodParam where
  | one (p : LeaderboardPeriod)
  | all
deriving DecidableEq, Repr

/-- The request body of `POST /api/leaderboard`; either field may be absent. -/
structure SubmitBody where
  score : Option JsNum
  period : Option PeriodParam
deriving DecidableEq, Repr

/-- The observable outcome of `POST /api/leaderboard`. -/
inductive SubmitResponse where
  | badRequest
  | updated (responsePeriod : LeaderboardPeriod)
deriving DecidableEq, Repr

/-- The `POST /api/leaderboard` route handler: validate the score, then upsert
into each requested period. -/
def postLeaderboard (now : Int) (username : String) (body : SubmitBody)
    (st : LeaderboardStore) : SubmitResponse × LeaderboardStore :=
  let score := body.score.getD (JsNum.num 0)
  if scoreInvalid score then (.badRequest, st)
  else
    let q := score.toFinite
    let periodParam := body.period.getD (.one .daily)
    let periods := match periodParam with
      | .all => [LeaderboardPeriod.daily, .weekly, .monthly, .overall]
      | .one p => [p]
    let st1 := periods.foldl (fun acc p => upsertScoreForPeriod now username q acc p) st
    let responsePeriod := match periodParam with
      | .all => LeaderboardPeriod.daily
      | .one p => p
    (.updated responsePeriod, st1)

/-- The store with no entries at all. -/
def emptyStore : LeaderboardStore := ⟨fun _ _ => none, fun _ => none⟩

theorem eraFormula_step (a : Int) (h0 : 0 ≤ a) (h1 : a < 146096) :
    eraFormula a ≤ eraFormula (a + 1) := by
  unfold eraFormula
  omega

theorem eraFormula_mono (a b : Int) (h0 : 0 ≤ a) (hab : a ≤ b) (hb : b ≤ 146096) :
    eraFormula a ≤ eraFormula b := by
  have H : ∀ n : Int, a ≤ n → (n ≤ 146096 → eraFormula a ≤ eraFormula n) := by
    refine Int.le_induction ?_ ?_
    · intro _
      exact le_refl _
    · intro n hn ih hb1
      exact le_trans (ih (by omega)) (eraFormula_step n (by omega) (by omega))
  exact H b hab hb

set_option maxRecDepth 100000 in
set_option maxHeartbeats 2000000 in
theorem eraFormula_points :
    ∀ n : Nat, n < 400 → eraFormula (dstart (n : Int)) = (n : Int) ∧
      eraFormula (yearEnd (n : Int)) = (n : Int) := by decide

theorem eraFormula_points_int (k : Int) (h0 : 0 ≤ k) (h1 : k ≤ 399) :
    eraFormula (dstart k) = k ∧ eraFormula (yearEnd k) = k := by
  have hk : ((k.toNat : Int)) = k := Int.toNat_of_nonneg h0
  have h := eraFormula_points k.toNat (by omega)
  rw [hk] at h
  exact h

theorem dstart_yearEnd_bounds (k : Int) (h0 : 0 ≤ k) (h1 : k ≤ 399) :
    0 ≤ dstart k ∧ yearEnd k ≤ 146096 ∧ dstart k ≤ yearEnd k ∧
      yearEnd k + 1 ≤ dstart k + 366 := by
  simp only [yearEnd, dstart]
  split <;> omega

/-- Core correctness of the year-of-era formula. -/
theorem era_core (doe : Int) (h0 : 0 ≤ doe) (h1 : doe ≤ 146096) :
    0 ≤ eraFormula doe ∧ eraFormula doe ≤ 399 ∧
      dstart (eraFormula doe) ≤ doe ∧ doe ≤ yearEnd (eraFormula doe) := by
  have hlo : eraFormula 0 ≤ eraFormula doe := eraFormula_mono 0 doe le_rfl h0 h1
  have hhi : eraFormula doe ≤ eraFormula 146096 := eraFormula_mono doe 146096 h0 h1 le_rfl
  have h0pt : eraFormula (dstart 0) = 0 := (eraFormula_points_int 0 (by omega) (by omega)).1
  have h399 : eraFormula (yearEnd 399) = 399 := (eraFormula_points_int 399 (by omega) (by omega)).2
  have hd0 : dstart 0 = 0 := by unfold dstart; decide
  have hy399 : yearEnd 399 = 146096 := by unfold yearEnd; decide
  rw [hd0] at h0pt
  rw [hy399] at h399
  have hk0 : 0 ≤ eraFormula doe := by omega
  have hk399 : eraFormula doe ≤ 399 := by omega
  refine ⟨hk0, hk399, ?_, ?_⟩
  · by_contra hcon
    push_neg at hcon
    have hk1 : 1 ≤ eraFormula doe := by
      by_contra hk'
      have hz : eraFormula doe = 0 := by omega
      rw [hz, hd0] at hcon
      omega
    have hb := dstart_yearEnd_bounds (eraFormula doe - 1) (by omega) (by omega)
    have hye : yearEnd (eraFormula doe - 1) = dstart (eraFormula doe) - 1 := by
      unfold yearEnd
      rw [if_neg (by omega)]
      ring_nf
    have hmono : eraFormula doe ≤ eraFormula (yearEnd (eraFormula doe - 1)) :=
      eraFormula_mono doe (yearEnd (eraFormula doe - 1)) h0 (by omega) (by omega)
    have hpt : eraFormula (yearEnd (eraFormula doe - 1)) = eraFormula doe - 1 :=
      (eraFormula_points_int (eraFormula doe - 1) (by omega) (by omega)).2
    omega
  · by_contra hcon
    push_neg at hcon
    have hk398 : eraFormula doe ≤ 398 := by
      by_contra hk'
      have hz : eraFormula doe = 399 := by omega
      rw [hz, hy399] at hcon
      omega
    have hye : yearEnd (eraFormula doe) = dstart (eraFormula doe + 1) - 1 := by
      unfold yearEnd
      rw [if_neg (by omega)]
    have hb := dstart_yearEnd_bounds (eraFormula doe + 1) (by omega) (by omega)
    have hmono : eraFormula (dstart (eraFormula doe + 1)) ≤ eraFormula doe :=
      eraFormula_mono (dstart (eraFormula doe + 1)) doe (by omega) (by omega) h1
    have hpt : eraFormula (dstart (eraFormula doe + 1)) = eraFormula doe + 1 :=
      (eraFormula_points_int (eraFormula doe + 1) (by omega) (by omega)).1
    omega

/-- Component bounds for `civilFromDays`. -/
theorem civil_components (z : Int) :
    0 ≤ yoeOf z ∧ yoeOf z ≤ 399 ∧ 0 ≤ doyOf z ∧ doyOf z ≤ 365 ∧
      0 ≤ mpOf z ∧ mpOf z ≤ 11 ∧ doeOf z ≤ yearEnd (yoeOf z) ∧
      doeOf z = dstart (yoeOf z) + doyOf z ∧
      0 ≤ doeOf z ∧ doeOf z ≤ 146096 ∧
      z = eraOf z * 146097 + doeOf z - 719468 := by
  have hdoe0 : 0 ≤ doeOf z := by unfold doeOf eraOf; omega
  have hdoe1 : doeOf z ≤ 146096 := by unfold doeOf eraOf; omega
  have hcore := era_core (doeOf z) hdoe0 hdoe1
  have hyoe : yoeOf z = eraFormula (doeOf z) := rfl
  rw [← hyoe] at hcore
  have hdstart : dstart (yoeOf z) = 365 * yoeOf z + yoeOf z / 4 - yoeOf z / 100 := rfl
  have hdoy : doyOf z = doeOf z - (365 * yoeOf z + yoeOf z / 4 - yoeOf z / 100) := rfl
  have hbnds := dstart_yearEnd_bounds (yoeOf z) hcore.1 hcore.2.1
  have hmp : mpOf z = (5 * doyOf z + 2) / 153 := rfl
  have hz : z = eraOf z * 146097 + doeOf z - 719468 := by unfold doeOf; ring
  have hdoy0 : 0 ≤ doyOf z := by omega
  have hdoy365 : doyOf z ≤ 365 := by omega
  have hmp0 : 0 ≤ mpOf z := by omega
  have hmp11 : mpOf z ≤ 11 := by omega
  have hsum : doeOf z = dstart (yoeOf z) + doyOf z := by omega
  exact ⟨hcore.1, hcore.2.1, hdoy0, hdoy365, hmp0, hmp11, hcore.2.2.2, hsum,
    hdoe0, hdoe1, hz⟩

/-- Full specification of `civilFromDays`: `daysFromCivil` inverts it, the
month lies in `[1, 12]` and the day in `[1, 31]`. -/
theorem civilFromDays_spec (z : Int) :
    daysFromCivil (civilYear z) (civilMonth z) (civilDay z) = z ∧
      1 ≤ civilMonth z ∧ civilMonth z ≤ 12 ∧ 1 ≤ civilDay z ∧ civilDay z ≤ 31 := by
  have hc := civil_components z
  have hmp : mpOf z = (5 * doyOf z + 2) / 153 := rfl
  have hd : civilDay z = doyOf z - (153 * mpOf z + 2) / 5 + 1 := rfl
  have hdb : 1 ≤ civilDay z ∧ civilDay z ≤ 31 := by
    rw [hd]
    constructor <;> omega
  by_cases h10 : mpOf z < 10
  · have hm : civilMonth z = mpOf z + 3 := by unfold civilMonth; rw [if_pos h10]
    have hmle : ¬ civilMonth z ≤ 2 := by omega
    have hy : civilYear z = yoeOf z + eraOf z * 400 := by
      unfold civilYear
      rw [if_neg hmle]
      ring
    have hys : yShiftOf (civilYear z) (civilMonth z) = yoeOf z + eraOf z * 400 := by
      unfold yShiftOf
      rw [if_neg hmle, hy]
      ring
    have hcode : monthCode (civilMonth z) = mpOf z := by
      unfold monthCode
      rw [if_pos (show 2 < civilMonth z by omega), hm]
      ring
    have hyoef : yoeFwd (civilYear z) (civilMonth z) = yoeOf z := by
      unfold yoeFwd
      rw [hys]
      have h1 : 0 ≤ yoeOf z := hc.1
      have h2 : yoeOf z ≤ 399 := hc.2.1
      omega
    have hfwd : daysFromCivil (civilYear z) (civilMonth z) (civilDay z) =
        yShiftOf (civilYear z) (civilMonth z) / 400 * 146097 +
          (yoeFwd (civilYear z) (civilMonth z) * 365 +
            yoeFwd (civilYear z) (civilMonth z) / 4 -
            yoeFwd (civilYear z) (civilMonth z) / 100 +
            ((153 * monthCode (civilMonth z) + 2) / 5 + civilDay z - 1)) - 719468 := rfl
    refine ⟨?_, by omega, by omega, hdb.1, hdb.2⟩
    rw [hfwd, hys, hyoef, hcode, hd]
    have hds : dstart (yoeOf z) = 365 * yoeOf z + yoeOf z / 4 - yoeOf z / 100 := rfl
    have h1 : 0 ≤ yoeOf z := hc.1
    have h2 : yoeOf z ≤ 399 := hc.2.1
    have h3 : doeOf z = dstart (yoeOf z) + doyOf z := hc.2.2.2.2.2.2.2.1
    have h4 : z = eraOf z * 146097 + doeOf z - 719468 := hc.2.2.2.2.2.2.2.2.2.2
    rw [hds] at h3
    omega
  · have hm : civilMonth z = mpOf z - 9 := by
      unfold civilMonth
      rw [if_neg h10]
      ring
    have hmp11 : mpOf z ≤ 11 := hc.2.2.2.2.2.1
    have hmle : civilMonth z ≤ 2 := by omega
    have hy : civilYear z = yoeOf z + eraOf z * 400 + 1 := by
      unfold civilYear
      rw [if_pos hmle]
    have hys : yShiftOf (civilYear z) (civilMonth z) = yoeOf z + eraOf z * 400 := by
      unfold yShiftOf
      rw [if_pos hmle, hy]
      ring
    have hcode : monthCode (civilMonth z) = mpOf z := by
      unfold monthCode
      rw [if_neg (show ¬ 2 < civilMonth z by omega), hm]
      ring
    have hyoef : yoeFwd (civilYear z) (civilMonth z) = yoeOf z := by
      unfold yoeFwd
      rw [hys]
      have h1 : 0 ≤ yoeOf z := hc.1
      have h2 : yoeOf z ≤ 399 := hc.2.1
      omega
    have hfwd : daysFromCivil (civilYear z) (civilMonth z) (civilDay z) =
        yShiftOf (civilYear z) (civilMonth z) / 400 * 146097 +
          (yoeFwd (civilYear z) (civilMonth z) * 365 +
            yoeFwd (civilYear z) (civilMonth z) / 4 -
            yoeFwd (civilYear z) (civilMonth z) / 100 +
            ((153 * monthCode (civilMonth z) + 2) / 5 + civilDay z - 1)) - 719468 := rfl
    refine ⟨?_, by omega, by omega, hdb.1, hdb.2⟩
    rw [hfwd, hys, hyoef, hcode, hd]
    have hds : dstart (yoeOf z) = 365 * yoeOf z + yoeOf z / 4 - yoeOf z / 100 := rfl
    have h1 : 0 ≤ yoeOf z := hc.1
    have h2 : yoeOf z ≤ 399 := hc.2.1
    have h3 : doeOf z = dstart (yoeOf z) + doyOf z := hc.2.2.2.2.2.2.2.1
    have h4 : z = eraOf z * 146097 + doeOf z - 719468 := hc.2.2.2.2.2.2.2.2.2.2
    rw [hds] at h3
    omega

/-- `daysFromCivil` is linear in the day argument. -/
theorem daysFromCivil_add_days (y m d k : Int) :
    daysFromCivil y m (d + k) = daysFromCivil y m d + k := by
  unfold daysFromCivil
  ring

/-- The roundtrip: converting a day count to civil and back is the identity. -/
theorem daysFromCivil_civilFromDays (z : Int) :
    daysFromCivil (civilYear z) (civilMonth z) (civilDay z) = z :=
  (civilFromDays_spec z).1

theorem daysFromCivil_eq (y m d : Int) :
    daysFromCivil y m d = yShiftOf y m / 400 * 146097 +
      dstart (yShiftOf y m - yShiftOf y m / 400 * 400) +
      ((153 * monthCode m + 2) / 5 + d - 1) - 719468 := by
  unfold daysFromCivil yoeFwd dstart
  ring

/-- `Date.UTC(getUTCFullYear, getUTCMonth, getUTCDate + k)` lands exactly `k`
days after the day containing the instant. -/
theorem dateUTC_shift_days (z k : Int) :
    dateUTC (civilYear z) (civilMonth z - 1) (civilDay z + k) = z + k := by
  have hs := civilFromDays_spec z
  have h12 : civilYear z + (civilMonth z - 1) / 12 = civilYear z := by omega
  have hm12 : (civilMonth z - 1) % 12 + 1 = civilMonth z := by omega
  unfold dateUTC
  rw [h12, hm12, daysFromCivil_add_days, hs.1]

/-- The first day of the month after the one containing day `z` is from 1 to
31 days after `z`. -/
theorem nextMonth_days (z : Int) :
    z < dateUTC (civilYear z) (civilMonth z - 1 + 1) 1 ∧
      dateUTC (civilYear z) (civilMonth z - 1 + 1) 1 ≤ z + 31 := by
  have hs := civilFromDays_spec z
  have hc := civil_components z
  have hyoe0 : 0 ≤ yoeOf z := hc.1
  have hyoe399 : yoeOf z ≤ 399 := hc.2.1
  have hdoy0 : 0 ≤ doyOf z := hc.2.2.1
  have hdoy365 : doyOf z ≤ 365 := hc.2.2.2.1
  have hmp0 : 0 ≤ mpOf z := hc.2.2.2.2.1
  have hmp11 : mpOf z ≤ 11 := hc.2.2.2.2.2.1
  have hdoeEnd : doeOf z ≤ yearEnd (yoeOf z) := hc.2.2.2.2.2.2.1
  have hdoe : doeOf z = dstart (yoeOf z) + doyOf z := hc.2.2.2.2.2.2.2.1
  have hzz : z = eraOf z * 146097 + doeOf z - 719468 := hc.2.2.2.2.2.2.2.2.2.2
  have hmeq : civilMonth z - 1 + 1 = civilMonth z := by ring
  rw [hmeq]
  have hmps : mpOf z = (5 * doyOf z + 2) / 153 := rfl
  have hdstartz : dstart (yoeOf z) = 365 * yoeOf z + yoeOf z / 4 - yoeOf z / 100 := rfl
  by_cases h11 : civilMonth z ≤ 11
  · have h12 : civilYear z + civilMonth z / 12 = civilYear z := by omega
    have hm12 : civilMonth z % 12 + 1 = civilMonth z + 1 := by omega
    unfold dateUTC
    rw [h12, hm12, daysFromCivil_eq]
    by_cases h10 : mpOf z < 10
    · -- month March .. November in the March-based order
      have hm : civilMonth z = mpOf z + 3 := by unfold civilMonth; rw [if_pos h10]
      have hys : yShiftOf (civilYear z) (civilMonth z + 1) = yoeOf z + eraOf z * 400 := by
        unfold yShiftOf civilYear
        rw [if_neg (show ¬ civilMonth z + 1 ≤ 2 by omega),
          if_neg (show ¬ civilMonth z ≤ 2 by omega)]
        ring
      have hcode : monthCode (civilMonth z + 1) = mpOf z + 1 := by
        unfold monthCode
        rw [if_pos (show 2 < civilMonth z + 1 by omega), hm]
        ring
      have harg : yShiftOf (civilYear z) (civilMonth z + 1) -
          yShiftOf (civilYear z) (civilMonth z + 1) / 400 * 400 = yoeOf z := by
        rw [hys]; omega
      have hdiv2 : yShiftOf (civilYear z) (civilMonth z + 1) / 400 = eraOf z := by
        rw [hys]; omega
      rw [harg, hdiv2, hcode, hdstartz]
      constructor <;> omega
    · have hm : civilMonth z = mpOf z - 9 := by
        unfold civilMonth
        rw [if_neg h10]
        ring
      by_cases hmp10 : mpOf z = 10
      · -- January: next month is February of the same shifted year
        have hys : yShiftOf (civilYear z) (civilMonth z + 1) = yoeOf z + eraOf z * 400 := by
          unfold yShiftOf civilYear
          rw [if_pos (show civilMonth z + 1 ≤ 2 by omega),
            if_pos (show civilMonth z ≤ 2 by omega)]
          ring
        have hcode : monthCode (civilMonth z + 1) = 11 := by
          unfold monthCode
          rw [if_neg (show ¬ 2 < civilMonth z + 1 by omega), hm, hmp10]
          decide
        have harg : yShiftOf (civilYear z) (civilMonth z + 1) -
            yShiftOf (civilYear z) (civilMonth z + 1) / 400 * 400 = yoeOf z := by
          rw [hys]; omega
        have hdiv2 : yShiftOf (civilYear z) (civilMonth z + 1) / 400 = eraOf z := by
          rw [hys]; omega
        rw [harg, hdiv2, hcode, hdstartz]
        constructor <;> omega
      · -- February: next month is March, the start of the next shifted year
        have hmp11' : mpOf z = 11 := by omega
        have hdoy337 : 337 ≤ doyOf z := by omega
        have hys : yShiftOf (civilYear z) (civilMonth z + 1) =
            yoeOf z + 1 + eraOf z * 400 := by
          unfold yShiftOf civilYear
          rw [if_neg (show ¬ civilMonth z + 1 ≤ 2 by omega),
            if_pos (show civilMonth z ≤ 2 by omega)]
          ring
        have hcode : monthCode (civilMonth z + 1) = 0 := by
          unfold monthCode
          rw [if_pos (show 2 < civilMonth z + 1 by omega), hm, hmp11']
          decide
        by_cases h398 : yoeOf z ≤ 398
        · have harg : yShiftOf (civilYear z) (civilMonth z + 1) -
              yShiftOf (civilYear z) (civilMonth z + 1) / 400 * 400 = yoeOf z + 1 := by
            rw [hys]; omega
          have hdiv2 : yShiftOf (civilYear z) (civilMonth z + 1) / 400 = eraOf z := by
            rw [hys]; omega
          rw [harg, hdiv2, hcode]
          have hye : yearEnd (yoeOf z) = dstart (yoeOf z + 1) - 1 := by
            unfold yearEnd
            rw [if_neg (by omega)]
          have hds1 : dstart (yoeOf z + 1) =
              365 * (yoeOf z + 1) + (yoeOf z + 1) / 4 - (yoeOf z + 1) / 100 := rfl
          constructor <;> omega
        · have h399 : yoeOf z = 399 := by omega
          have harg : yShiftOf (civilYear z) (civilMonth z + 1) -
              yShiftOf (civilYear z) (civilMonth z + 1) / 400 * 400 = 0 := by
            rw [hys, h399]; omega
          have hdiv2 : yShiftOf (civilYear z) (civilMonth z + 1) / 400 = eraOf z + 1 := by
            rw [hys, h399]; omega
          rw [harg, hdiv2, hcode]
          have hye : yearEnd (yoeOf z) = 146096 := by rw [h399]; unfold yearEnd; decide
          have hds399 : dstart (yoeOf z) = 145731 := by rw [h399]; unfold dstart; decide
          have hds0 : dstart (0 : Int) = 0 := by unfold dstart; decide
          rw [hds0]
          omega
  · -- December: next month is January of the next calendar year
    have hm12' : civilMonth z = 12 := by omega
    have h12 : civilYear z + civilMonth z / 12 = civilYear z + 1 := by omega
    have hm12 : civilMonth z % 12 + 1 = 1 := by omega
    unfold dateUTC
    rw [h12, hm12, daysFromCivil_eq]
    have hmp9 : mpOf z = 9 := by
      by_cases h10 : mpOf z < 10
      · have hm : civilMonth z = mpOf z + 3 := by unfold civilMonth; rw [if_pos h10]
        omega
      · have hm : civilMonth z = mpOf z - 9 := by
          unfold civilMonth
          rw [if_neg h10]
          ring
        omega
    have hys : yShiftOf (civilYear z + 1) 1 = yoeOf z + eraOf z * 400 := by
      unfold yShiftOf civilYear
      rw [if_pos (show (1:Int) ≤ 2 by omega),
        if_neg (show ¬ civilMonth z ≤ 2 by omega)]
      ring
    have hcode : monthCode 1 = 10 := by unfold monthCode; decide
    have harg : yShiftOf (civilYear z + 1) 1 -
        yShiftOf (civilYear z + 1) 1 / 400 * 400 = yoeOf z := by
      rw [hys]; omega
    have hdiv2 : yShiftOf (civilYear z + 1) 1 / 400 = eraOf z := by
      rw [hys]; omega
    rw [harg, hdiv2, hcode, hdstartz]
    constructor <;> omega

theorem nextUtcMidnight_eq (now : Int) :
    nextUtcMidnight now = (now / msPerDay + 1) * msPerDay := by
  unfold nextUtcMidnight epochDaysOf
  rw [dateUTC_shift_days]

theorem nextUtcMidnight_bounds (now : Int) :
    nextUtcMidnight now % msPerDay = 0 ∧ now < nextUtcMidnight now ∧
      nextUtcMidnight now ≤ now + msPerDay := by
  rw [nextUtcMidnight_eq]
  unfold msPerDay
  omega

theorem nextWeekStart_eq (now : Int) :
    nextWeekStart now = (now / msPerDay + (8 - jsDow7 now)) * msPerDay := by
  unfold nextWeekStart epochDaysOf
  rw [dateUTC_shift_days]

theorem nextWeekStart_bounds (now : Int) :
    nextWeekStart now % msPerDay = 0 ∧ now < nextWeekStart now ∧
      nextWeekStart now ≤ now + 7 * msPerDay ∧
      (nextWeekStart now / msPerDay + 4) % 7 = 1 := by
  rw [nextWeekStart_eq]
  unfold jsDow7 getUTCDayOfWeek epochDaysOf msPerDay
  by_cases h : (now / 86400000 + 4) % 7 = 0
  · rw [if_pos h]
    omega
  · rw [if_neg h]
    omega

theorem nextMonthStart_bounds (now : Int) :
    nextMonthStart now % msPerDay = 0 ∧ now < nextMonthStart now ∧
      nextMonthStart now ≤ now + 31 * msPerDay := by
  have h := nextMonth_days (now / 86400000)
  unfold nextMonthStart epochDaysOf msPerDay
  refine ⟨?_, ?_, ?_⟩ <;> omega

theorem mem_jsSetList_aux {α : Type} [DecidableEq α] (l acc : List α) (x : α) :
    x ∈ l.foldl (fun acc c => if c ∈ acc then acc else acc ++ [c]) acc ↔
      x ∈ acc ∨ x ∈ l := by
  induction l generalizing acc with
  | nil => simp
  | cons a t ih =>
    simp only [List.foldl_cons, ih, List.mem_cons]
    by_cases ha : a ∈ acc
    · rw [if_pos ha]
      constructor
      · rintro (h | h)
        · exact Or.inl h
        · exact Or.inr (Or.inr h)
      · rintro (h | h | h)
        · exact Or.inl h
        · exact Or.inl (h ▸ ha)
        · exact Or.inr h
    · rw [if_neg ha]
      simp only [List.mem_append, List.mem_singleton]
      tauto

theorem mem_jsSetList {α : Type} [DecidableEq α] (l : List α) (x : α) :
    x ∈ jsSetList l ↔ x ∈ l := by
  unfold jsSetList
  rw [mem_jsSetList_aux]
  simp

theorem nodup_jsSetList_aux {α : Type} [DecidableEq α] (l acc : List α) (h : acc.Nodup) :
    (l.foldl (fun acc c => if c ∈ acc then acc else acc ++ [c]) acc).Nodup := by
  induction l generalizing acc with
  | nil => exact h
  | cons a t ih =>
    simp only [List.foldl_cons]
    by_cases ha : a ∈ acc
    · rw [if_pos ha]
      exact ih acc h
    · rw [if_neg ha]
      refine ih _ ?_
      simp [List.nodup_append, h, ha]

theorem nodup_jsSetList {α : Type} [DecidableEq α] (l : List α) : (jsSetList l).Nodup :=
  nodup_jsSetList_aux l [] List.nodup_nil

theorem reduceOption_of_map_some (w : List Char) : (w.map some).reduceOption = w := by
  induction w with
  | nil => simp
  | cons a t ih => rw [List.map_cons, List.reduceOption_cons_of_some, ih]

theorem reduceOption_map_some (l : List (Option Char)) (h : ∀ s ∈ l, s ≠ none) :
    l.reduceOption.map some = l := by
  induction l with
  | nil => simp
  | cons a t ih =>
    match a with
    | none => exact absurd rfl (h none (List.mem_cons_self _ _))
    | some x =>
      rw [List.reduceOption_cons_of_some]
      simp only [List.map_cons]
      rw [ih fun s hs => h s (List.mem_cons_of_mem _ hs)]

/-- C4: `isWordComplete` is true exactly when the buckets are the
(all-filled) letters of one of the words of the set; and on the
`cat\cap\car` examples it behaves as the specification lists. -/
theorem isWordComplete_spec :
    (∀ (buckets : List (Option Char)) (ws : WordSet),
      isWordComplete buckets ws = true ↔ ∃ w ∈ ws.words, buckets = w.map some) ∧
    isWordComplete [some 'c', some 'a', some 't']
      ⟨"C* words", [['c','a','t'], ['c','a','p'], ['c','a','r']]⟩ = true ∧
    isWordComplete [some 'c', some 'a', some 'p']
      ⟨"C* words", [['c','a','t'], ['c','a','p'], ['c','a','r']]⟩ = true ∧
    isWordComplete [some 'c', some 'o', some 't']
      ⟨"C* words", [['c','a','t'], ['c','a','p'], ['c','a','r']]⟩ = false ∧
    isWordComplete [some 'c', none, some 't']
      ⟨"C* words", [['c','a','t'], ['c','a','p'], ['c','a','r']]⟩ = false := by
  refine ⟨?_, by decide, by decide, by decide, by decide⟩
  intro buckets ws
  unfold isWordComplete
  by_cases h : buckets.any fun slot => slot == none
  · rw [if_pos h]
    simp only [Bool.false_eq_true, false_iff]
    rintro ⟨w, _, rfl⟩
    simp only [List.any_eq_true, beq_iff_eq] at h
    obtain ⟨s, hs, hnone⟩ := h
    obtain ⟨c, _, rfl⟩ := List.mem_map.mp hs
    exact Option.noConfusion hnone
  · rw [if_neg h]
    have hnn : ∀ s ∈ buckets, s ≠ none := by
      intro s hs hcon
      exact h (List.any_eq_true.mpr ⟨s, hs, by simp [hcon]⟩)
    constructor
    · intro hmem
      exact ⟨buckets.reduceOption, List.mem_of_elem_eq_true hmem,
        (reduceOption_map_some buckets hnn).symm⟩
    · rintro ⟨w, hw, rfl⟩
      apply List.elem_eq_true_of_mem
      rw [reduceOption_of_map_some]
      exact hw

/-- C7: for a word set of equal-length words, `getValidLettersByIndex` yields
one set per index holding exactly the distinct characters at that index, and
on `rat\rag\ram` it yields `{r},{a},{t,g,m}`. -/
theorem getValidLettersByIndex_spec (ws : WordSet) (L : Nat)
    (hne : ws.words ≠ []) (hlen : ∀ w ∈ ws.words, w.length = L) :
    (getValidLettersByIndex ws).length = L ∧
    (∀ i, i < L → ∀ c : Char,
      some c ∈ ((getValidLettersByIndex ws)[i]?.getD []) ↔
        ∃ w ∈ ws.words, w[i]? = some c) ∧
    (∀ i, i < L → ((getValidLettersByIndex ws)[i]?.getD []).Nodup) ∧
    (∀ i, i < L → none ∉ ((getValidLettersByIndex ws)[i]?.getD [])) ∧
    getValidLettersByIndex ⟨"R* words", [['r','a','t'], ['r','a','g'], ['r','a','m']]⟩ =
      [[some 'r'], [some 'a'], [some 't', some 'g', some 'm']] := by
  obtain ⟨w0, t, hw⟩ := List.exists_cons_of_ne_nil hne
  have hhead : ws.words.headD [] = w0 := by rw [hw]; rfl
  have hL : (ws.words.headD []).length = L := by
    rw [hhead]
    exact hlen w0 (hw ▸ List.mem_cons_self _ _)
  have hlength : (getValidLettersByIndex ws).length = L := by
    unfold getValidLettersByIndex
    rw [List.length_map, List.length_range, hL]
  have hentry : ∀ i, i < L →
      (getValidLettersByIndex ws)[i]? =
        some (jsSetList (ws.words.map fun w => w[i]?)) := by
    intro i hi
    unfold getValidLettersByIndex
    rw [List.getElem?_map, List.getElem?_range (by omega : i < (ws.words.headD []).length)]
    rfl
  refine ⟨hlength, ?_, ?_, ?_, by decide⟩
  · intro i hi c
    rw [hentry i hi]
    simp only [Option.getD_some]
    rw [mem_jsSetList, List.mem_map]
  · intro i hi
    rw [hentry i hi]
    exact nodup_jsSetList _
  · intro i hi
    rw [hentry i hi]
    simp only [Option.getD_some]
    rw [mem_jsSetList, List.mem_map]
    rintro ⟨w, hwmem, hnone⟩
    rw [List.getElem?_eq_getElem (by rw [hlen w hwmem]; exact hi)] at hnone
    exact Option.noConfusion hnone

/-- Witness for C7 at the `rat\rag\ram` word set. -/
theorem getValidLettersByIndex_spec_witness :
    ((⟨"R* words", [['r','a','t'], ['r','a','g'], ['r','a','m']]⟩ : WordSet).words ≠ [] ∧
      ∀ w ∈ (⟨"R* words", [['r','a','t'], ['r','a','g'], ['r','a','m']]⟩ : WordSet).words,
        w.length = 3) ∧
    getValidLettersByIndex ⟨"R* words", [['r','a','t'], ['r','a','g'], ['r','a','m']]⟩ =
      [[some 'r'], [some 'a'], [some 't', some 'g', some 'm']] :=
  ⟨⟨by decide, by decide⟩,
    (getValidLettersByIndex_spec ⟨"R* words", [['r','a','t'], ['r','a','g'], ['r','a','m']]⟩ 3
      (by decide) (by decide)).2.2.2.2⟩

/-- C8: after a spawn tick the live-letter list holds at most 14 letters; what
is kept is a suffix of `prev ++ [next]`, so the dropped entries are exactly
the oldest entries at the front, and the newly spawned letter is always kept. -/
theorem spawnTick_spec (prev : List FallingLetter) (next : FallingLetter) :
    (spawnTick prev next).length ≤ 14 ∧
    (prev ++ [next]).take (prev.length + 1 - 14) ++ spawnTick prev next = prev ++ [next] ∧
    next ∈ spawnTick prev next := by
  have hlen : (prev ++ [next]).length = prev.length + 1 := by simp
  unfold spawnTick jsSliceLast14
  refine ⟨?_, ?_, ?_⟩
  · rw [List.length_drop]
    omega
  · rw [hlen]
    exact List.take_append_drop _ _
  · rw [List.drop_append_of_le_length (by omega)]
    exact List.mem_append_right _ (List.mem_singleton.mpr rfl)

/-- C10: a gravity tick leaves every dragged letter in place — given the
pointer-move clamp invariant, a dragging letter passes the bottom filter
unchanged — and the pointer-move handler indeed clamps the dragged letter to
`y ≤ height - LETTER_SIZE`. -/
theorem gravity_tick_preserves_dragged (letters : List FallingLetter) (height : ℚ)
    (hclamp : ∀ l ∈ letters, l.isDragging = true → l.y ≤ height - LETTER_SIZE) :
    (∀ l ∈ letters, l.isDragging = true → l ∈ fallTick height letters) ∧
    ∀ (draggedId : String) (clientX clientY left top offX offY width : ℚ)
      (l : FallingLetter),
      l ∈ handlePointerMove draggedId clientX clientY left top offX offY width height letters →
      l.id = draggedId → l.y ≤ height - LETTER_SIZE := by
  constructor
  · intro l hl hd
    unfold fallTick
    rw [List.mem_filter]
    constructor
    · exact List.mem_map.mpr ⟨l, hl, by rw [hd]; simp⟩
    · have h1 : l.y ≤ height - LETTER_SIZE := hclamp l hl hd
      have h2 : l.y < height + LETTER_SIZE := by
        unfold LETTER_SIZE at h1 ⊢
        linarith
      simpa using h2
  · intro draggedId clientX clientY left top offX offY width l hl hid
    unfold handlePointerMove at hl
    obtain ⟨x, hx, hfx⟩ := List.mem_map.mp hl
    by_cases hxid : x.id = draggedId
    · rw [if_pos hxid] at hfx
      rw [← hfx]
      exact min_le_right _ _
    · rw [if_neg hxid] at hfx
      rw [← hfx] at hid
      exact absurd hid hxid

/-- Witness for C10: a dragged letter sitting exactly at the clamp limit
survives the gravity tick. -/
theorem gravity_tick_preserves_dragged_witness :
    (∀ l ∈ [(⟨"a", 'c', 10, 640 - 48, 2, true⟩ : FallingLetter)],
      l.isDragging = true → l.y ≤ 640 - LETTER_SIZE) ∧
    (⟨"a", 'c', 10, 640 - 48, 2, true⟩ : FallingLetter) ∈
      fallTick 640 [⟨"a", 'c', 10, 640 - 48, 2, true⟩] := by
  have hcl : ∀ l ∈ [(⟨"a", 'c', 10, 640 - 48, 2, true⟩ : FallingLetter)],
      l.isDragging = true → l.y ≤ 640 - LETTER_SIZE := by
    intro l hl _
    rw [List.mem_singleton] at hl
    subst hl
    exact le_refl _
  exact ⟨hcl, (gravity_tick_preserves_dragged _ 640 hcl).1 _
    (List.mem_singleton.mpr rfl) rfl⟩

/-- C3: on pointer-up over an empty bucket, an invalid character leaves the
buckets unchanged and merely clears the drag flag (position untouched); the
character is written and the letter removed exactly when the bucket is empty
and the character is in the valid-letter set of that index; an occupied bucket
never changes. -/
theorem handlePointerUp_spec (i : Nat) (draggedId : String) (buckets : List (Option Char))
    (valid : List (List (Option Char))) (letters : List FallingLetter)
    (dragged : FallingLetter) :
    (buckets[i]? = some none →
      letters.find? (fun l => l.id == draggedId) = some dragged →
      ((valid[i]?.getD []).contains (some dragged.char) = false →
        handlePointerUp (some i) draggedId buckets valid letters =
          (buckets, releaseDraggedLetter draggedId letters)) ∧
      ((valid[i]?.getD []).contains (some dragged.char) = true →
        handlePointerUp (some i) draggedId buckets valid letters =
          (buckets.mapIdx fun j slot => if j = i then some dragged.char else slot,
           letters.filter fun l => l.id != draggedId))) ∧
    (∀ c, buckets[i]? = some (some c) →
      handlePointerUp (some i) draggedId buckets valid letters =
        (buckets, releaseDraggedLetter draggedId letters)) ∧
    (releaseDraggedLetter draggedId letters).map (fun l => (l.id, l.x, l.y)) =
      letters.map (fun l => (l.id, l.x, l.y)) := by
  refine ⟨?_, ?_, ?_⟩
  · intro hempty hfind
    have hocc : bucketOccupied buckets i = false := by
      unfold bucketOccupied
      rw [hempty]
    constructor
    · intro hinvalid
      simp only [handlePointerUp, hocc, hfind, hinvalid]
      simp
    · intro hvalid
      simp only [handlePointerUp, hocc, hfind, hvalid]
      simp
  · intro c hfull
    have hocc : bucketOccupied buckets i = true := by
      unfold bucketOccupied
      rw [hfull]
    simp only [handlePointerUp, hocc]
    simp
  · unfold releaseDraggedLetter
    rw [List.map_map]
    apply List.map_congr_left
    intro l _
    by_cases h : l.id = draggedId
    · rw [Function.comp_apply, if_pos h]
    · rw [Function.comp_apply, if_neg h]

/-- Witness for C3: dropping the letter `z` on the first (empty) bucket of the
`rat\rag\ram` round is refused and the letter resumes falling. -/
theorem handlePointerUp_spec_witness :
    (([none, none, none] : List (Option Char))[0]? = some none ∧
      [(⟨"z", 'z', 10, 20, 1, true⟩ : FallingLetter)].find? (fun l => l.id == "z") =
        some ⟨"z", 'z', 10, 20, 1, true⟩ ∧
      (((getValidLettersByIndex
          ⟨"R* words", [['r','a','t'], ['r','a','g'], ['r','a','m']]⟩)[0]?.getD []).contains
        (some (⟨"z", 'z', 10, 20, 1, true⟩ : FallingLetter).char)) = false) ∧
    handlePointerUp (some 0) "z" [none, none, none]
        (getValidLettersByIndex ⟨"R* words", [['r','a','t'], ['r','a','g'], ['r','a','m']]⟩)
        [⟨"z", 'z', 10, 20, 1, true⟩] =
      ([none, none, none], releaseDraggedLetter "z" [⟨"z", 'z', 10, 20, 1, true⟩]) :=
  ⟨⟨rfl, rfl, by decide⟩,
    ((handlePointerUp_spec 0 "z" [none, none, none]
        (getValidLettersByIndex ⟨"R* words", [['r','a','t'], ['r','a','g'], ['r','a','m']]⟩)
        [⟨"z", 'z', 10, 20, 1, true⟩] ⟨"z", 'z', 10, 20, 1, true⟩).1 rfl rfl).1 (by decide)⟩

theorem applyExpiry_scores (now : Int) (p : LeaderboardPeriod) (key : String)
    (st : LeaderboardStore) : (applyExpiry now p key st).scores = st.scores := by
  unfold applyExpiry
  split
  · split
    · rfl
    · rfl
  · rfl

theorem upsert_scores_value (now : Int) (username : String) (score : ℚ)
    (st : LeaderboardStore) (p : LeaderboardPeriod) :
    (upsertScoreForPeriod now username score st p).scores
        (getLeaderboardKey p now) username =
      some (match st.scores (getLeaderboardKey p now) username with
            | none => score
            | some existing => max existing score) := by
  unfold upsertScoreForPeriod
  cases hE : st.scores (getLeaderboardKey p now) username with
  | none =>
    simp only [hE, applyExpiry_scores]
    unfold zAdd
    simp
  | some existing =>
    simp only [hE]
    by_cases h : score > existing
    · rw [if_pos h]
      simp only [applyExpiry_scores]
      unfold zAdd
      simp [max_eq_right (le_of_lt h)]
    · rw [if_neg h]
      rw [hE, max_eq_left (not_lt.mp h)]

theorem upsert_skip (now : Int) (username : String) (score : ℚ)
    (st : LeaderboardStore) (p : LeaderboardPeriod) (v : ℚ)
    (hv : st.scores (getLeaderboardKey p now) username = some v) (hle : score ≤ v) :
    upsertScoreForPeriod now username score st p = st := by
  unfold upsertScoreForPeriod
  simp only [hv]
  rw [if_neg (not_lt.mpr hle)]

theorem postLeaderboard_single_valid (now : Int) (username : String) (q : ℚ)
    (st : LeaderboardStore) (p : LeaderboardPeriod) (hq : 0 < q) :
    postLeaderboard now username ⟨some (.num q), some (.one p)⟩ st =
      (.updated p, upsertScoreForPeriod now username q st p) := by
  unfold postLeaderboard
  have hinv : scoreInvalid (JsNum.num q) = false := by
    unfold scoreInvalid
    simp [not_le.mpr hq]
  simp [hinv, JsNum.toFinite]

/-- C1: score submission upserts into the sorted set of a period exactly the best
score seen: the stored value after an upsert is the new score when no entry
exists, and otherwise the maximum of old and new (so a stored score never
decreases, and nothing is written unless the new score strictly exceeds the
old); concretely, submitting 50 then 30 leaves 50 stored, and 50 then 80
stores 80. -/
theorem leaderboard_submit_best_score_policy :
    (∀ (now : Int) (username : String) (score : ℚ) (st : LeaderboardStore)
        (period : LeaderboardPeriod),
      (upsertScoreForPeriod now username score st period).scores
          (getLeaderboardKey period now) username =
        some (match st.scores (getLeaderboardKey period now) username with
              | none => score
              | some existing => max existing score)) ∧
    (∀ (now : Int) (username : String) (score : ℚ) (st : LeaderboardStore)
        (period : LeaderboardPeriod) (v : ℚ),
      st.scores (getLeaderboardKey period now) username = some v → score ≤ v →
      upsertScoreForPeriod now username score st period = st) ∧
    ((postLeaderboard 1710496800000 "alice" ⟨some (.num 50), some (.one .daily)⟩
        emptyStore).2.scores (getLeaderboardKey .daily 1710496800000) "alice" = some 50 ∧
      (postLeaderboard 1710496800000 "alice" ⟨some (.num 30), some (.one .daily)⟩
        (postLeaderboard 1710496800000 "alice" ⟨some (.num 50), some (.one .daily)⟩
          emptyStore).2).2.scores (getLeaderboardKey .daily 1710496800000) "alice" =
        some 50 ∧
      (postLeaderboard 1710496800000 "alice" ⟨some (.num 80), some (.one .daily)⟩
        (postLeaderboard 1710496800000 "alice" ⟨some (.num 50), some (.one .daily)⟩
          emptyStore).2).2.scores (getLeaderboardKey .daily 1710496800000) "alice" =
        some 80) := by
  have h50 := postLeaderboard_single_valid 1710496800000 "alice" 50 emptyStore .daily
    (by norm_num)
  have hval50 : (upsertScoreForPeriod 1710496800000 "alice" 50 emptyStore .daily).scores
      (getLeaderboardKey .daily 1710496800000) "alice" = some 50 := by
    rw [upsert_scores_value]
    rfl
  refine ⟨fun now u s st p => upsert_scores_value now u s st p,
    fun now u s st p v hv hle => upsert_skip now u s st p v hv hle, ?_, ?_, ?_⟩
  · rw [h50]
    exact hval50
  · rw [h50]
    rw [postLeaderboard_single_valid 1710496800000 "alice" 30 _ .daily (by norm_num)]
    rw [upsert_scores_value, hval50]
    dsimp only
    rw [show ((50 : ℚ) ⊔ 30) = 50 from max_eq_left (by norm_num)]
  · rw [h50]
    rw [postLeaderboard_single_valid 1710496800000 "alice" 80 _ .daily (by norm_num)]
    rw [upsert_scores_value, hval50]
    dsimp only
    rw [show ((50 : ℚ) ⊔ 80) = 80 from max_eq_right (by norm_num)]

/-- Witness for C1: the skip branch applied at an existing score of 50 and a
new score of 30. -/
theorem leaderboard_submit_best_score_policy_witness :
    ((zAdd emptyStore (getLeaderboardKey .daily 1710496800000) "alice" 50).scores
        (getLeaderboardKey .daily 1710496800000) "alice" = some 50 ∧ (30 : ℚ) ≤ 50) ∧
    upsertScoreForPeriod 1710496800000 "alice" 30
        (zAdd emptyStore (getLeaderboardKey .daily 1710496800000) "alice" 50) .daily =
      zAdd emptyStore (getLeaderboardKey .daily 1710496800000) "alice" 50 := by
  have hv : (zAdd emptyStore (getLeaderboardKey .daily 1710496800000) "alice" 50).scores
      (getLeaderboardKey .daily 1710496800000) "alice" = some 50 := by
    unfold zAdd emptyStore
    simp
  have hle : (30 : ℚ) ≤ 50 := by norm_num
  exact ⟨⟨hv, hle⟩,
    (leaderboard_submit_best_score_policy).2.1 1710496800000 "alice" 30 _ .daily 50 hv hle⟩

/-- C2: a non-positive or non-finite submitted score is rejected with a 400
response and the store is returned untouched — no period is written. -/
theorem post_leaderboard_rejects_invalid_scores :
    (∀ (now : Int) (username : String) (st : LeaderboardStore)
        (per : Option PeriodParam) (q : ℚ), q ≤ 0 →
      postLeaderboard now username ⟨some (.num q), per⟩ st = (.badRequest, st)) ∧
    (∀ (now : Int) (username : String) (st : LeaderboardStore) (per : Option PeriodParam),
      postLeaderboard now username ⟨some .nan, per⟩ st = (.badRequest, st)) ∧
    (∀ (now : Int) (username : String) (st : LeaderboardStore) (per : Option PeriodParam),
      postLeaderboard now username ⟨some .posInf, per⟩ st = (.badRequest, st)) ∧
    (∀ (now : Int) (username : String) (st : LeaderboardStore) (per : Option PeriodParam),
      postLeaderboard now username ⟨some .negInf, per⟩ st = (.badRequest, st)) := by
  refine ⟨?_, fun _ _ _ _ => rfl, fun _ _ _ _ => rfl, fun _ _ _ _ => rfl⟩
  intro now username st per q hq
  unfold postLeaderboard
  have hinv : scoreInvalid (JsNum.num q) = true := by
    unfold scoreInvalid
    simp [hq]
  simp [hinv]

/-- Witness for C2 at `{score: -5}`. -/
theorem post_leaderboard_rejects_invalid_scores_witness :
    ((-5 : ℚ) ≤ 0) ∧
    postLeaderboard 1710496800000 "alice" ⟨some (.num (-5)), none⟩ emptyStore =
      (.badRequest, emptyStore) :=
  ⟨by norm_num,
    (post_leaderboard_rejects_invalid_scores).1 1710496800000 "alice" emptyStore none (-5)
      (by norm_num)⟩

/-- C9: a request body with no `score` field coerces to 0, fails the
`score > 0` check and is rejected with no store mutation. -/
theorem post_leaderboard_missing_score_rejected :
    (∀ (now : Int) (username : String) (st : LeaderboardStore) (per : Option PeriodParam),
      postLeaderboard now username ⟨none, per⟩ st = (.badRequest, st)) ∧
    (none : Option JsNum).getD (JsNum.num 0) = JsNum.num 0 ∧
    scoreInvalid (JsNum.num 0) = true := by
  refine ⟨?_, rfl, ?_⟩
  · intro now username st per
    unfold postLeaderboard
    have hinv : scoreInvalid (JsNum.num 0) = true := by
      unfold scoreInvalid
      simp
    simp [hinv]
  · unfold scoreInvalid
    simp

/-- C5: at the UTC instant 2024-03-15T10:00:00Z the daily key ends in
`2024-03-15`, the monthly key ends in `2024-03` and the weekly key resolves to
ISO week 11 of 2024; the weekly key always starts with `leaderboard:weekly:` followed by the ISO-week identifier computed by Thursday-shifting. -/
theorem leaderboard_key_resolution :
    getLeaderboardKey .daily (daysFromCivil 2024 3 15 * 86400000 + 36000000) =
      "leaderboard:daily:2024-03-15" ∧
    getLeaderboardKey .weekly (daysFromCivil 2024 3 15 * 86400000 + 36000000) =
      "leaderboard:weekly:2024-W11" ∧
    getLeaderboardKey .monthly (daysFromCivil 2024 3 15 * 86400000 + 36000000) =
      "leaderboard:monthly:2024-03" ∧
    getLeaderboardKey .overall (daysFromCivil 2024 3 15 * 86400000 + 36000000) =
      "leaderboard:overall" ∧
    (∀ now : Int, getLeaderboardKey .weekly now = "leaderboard:weekly:" ++ getIsoWeekKey now) ∧
    getUTCDayOfWeek (daysFromCivil 2024 3 15 * 86400000 + 36000000) = 5 :=
  ⟨by decide, by decide, by decide, by decide, fun _ => rfl, by decide⟩

/-- C6: `getSecondsUntilNextPeriod` is `null` for the overall period; for the
other periods it is the floored seconds to the next period boundary with a
60-second minimum; the boundaries really are the next UTC midnight, the next
UTC Monday midnight, and the first instant of the next UTC month; and at
2024-03-15T23:59:30Z the daily expiry is exactly 60. -/
theorem expiry_seconds_spec :
    (∀ now : Int, getSecondsUntilNextPeriod .overall now = none) ∧
    (∀ now : Int, getSecondsUntilNextPeriod .daily now =
      some (max 60 ((nextUtcMidnight now - now) / 1000))) ∧
    (∀ now : Int, getSecondsUntilNextPeriod .weekly now =
      some (max 60 ((nextWeekStart now - now) / 1000))) ∧
    (∀ now : Int, getSecondsUntilNextPeriod .monthly now =
      some (max 60 ((nextMonthStart now - now) / 1000))) ∧
    (∀ now : Int, nextUtcMidnight now % msPerDay = 0 ∧ now < nextUtcMidnight now ∧
      nextUtcMidnight now ≤ now + msPerDay) ∧
    (∀ now : Int, nextWeekStart now % msPerDay = 0 ∧ now < nextWeekStart now ∧
      nextWeekStart now ≤ now + 7 * msPerDay ∧
      (nextWeekStart now / msPerDay + 4) % 7 = 1) ∧
    (∀ now : Int, nextMonthStart now % msPerDay = 0 ∧ now < nextMonthStart now ∧
      nextMonthStart now ≤ now + 31 * msPerDay) ∧
    (∀ (now : Int) (p : LeaderboardPeriod) (s : Int),
      getSecondsUntilNextPeriod p now = some s → 60 ≤ s) ∧
    getSecondsUntilNextPeriod .daily (daysFromCivil 2024 3 15 * 86400000 + 86370000) =
      some 60 := by
  refine ⟨fun _ => rfl, fun _ => rfl, fun _ => rfl, fun _ => rfl,
    nextUtcMidnight_bounds, nextWeekStart_bounds, nextMonthStart_bounds, ?_, by decide⟩
  intro now p s h
  cases p with
  | daily =>
    simp only [getSecondsUntilNextPeriod, Option.some.injEq] at h
    rw [← h]
    exact le_max_left _ _
  | weekly =>
    simp only [getSecondsUntilNextPeriod, Option.some.injEq] at h
    rw [← h]
    exact le_max_left _ _
  | monthly =>
    simp only [getSecondsUntilNextPeriod, Option.some.injEq] at h
    rw [← h]
    exact le_max_left _ _
  | overall => exact absurd h (by simp [getSecondsUntilNextPeriod])

/-- Witness for C6: the 60-second floor holds at 2024-03-15T23:59:30Z. -/
theorem expiry_seconds_spec_witness :
    getSecondsUntilNextPeriod .daily (daysFromCivil 2024 3 15 * 86400000 + 86370000) =
      some 60 ∧ (60 : Int) ≤ 60 :=
  ⟨by decide, (expiry_seconds_spec).2.2.2.2.2.2.2.1
    (daysFromCivil 2024 3 15 * 86400000 + 86370000) .daily 60 (by decide)⟩
